import Mathlib

/-!
Verification of `src/convert_bw.py`: three color-to-grayscale converters
(`convert_numpy`, `convert_numba`, `convert_numba_loop`), a profiling
harness (`profile_function`), and the `main` driver.

Modelling conventions for the shallow embedding:
* An image is a list of rows; each row is a list of `(r, g, b)` pixels,
  each channel a natural number (uint8 samples are naturals `< 256`).
* A grayscale image is a list of rows of naturals.
* numpy float64 arithmetic on the decimal literals `0.2989`, `0.5870`,
  `0.1140` is modelled as exact rational arithmetic; `np.round` is
  round-half-to-even (numpy's rounding rule), modelled by `rnd`;
  `astype(np.uint8)` and stores into a uint8 array wrap modulo 256.
* numba `@jit` is semantics-preserving: the jitted functions are embedded
  with the same bodies as their Python sources.
-/


/-- A pixel: red, green, blue channel samples. -/
abbrev Pixel := ℕ × ℕ × ℕ

/-- A color image: rows of pixels (numpy shape `(height, width, 3)`). -/
abbrev Image := List (List Pixel)

/-- A grayscale image: rows of samples (numpy shape `(height, width)`). -/
abbrev Gray := List (List ℕ)

/-- `image.shape[0]`: the number of rows. -/
def height (image : Image) : ℕ := image.length

/-- `image.shape[1]`: the number of columns (length of the first row;
numpy arrays are rectangular, captured by `Rect`). -/
def width (image : Image) : ℕ := (image.headD []).length

/-- Rectangularity: every row has the common width.  numpy arrays satisfy
this by construction. -/
def Rect (image : Image) : Prop := ∀ r ∈ image, r.length = width image

instance (image : Image) : Decidable (Rect image) :=
  List.decidableBAll _ image

/-- All channel samples are 8-bit (`< 256`), as for a `uint8` numpy image. -/
def Valid8 (image : Image) : Prop :=
  ∀ r ∈ image, ∀ p ∈ r, p.1 < 256 ∧ p.2.1 < 256 ∧ p.2.2 < 256

instance (image : Image) : Decidable (Valid8 image) :=
  List.decidableBAll _ image

/-- `np.round` on a real scalar: round half to even (numpy's rule). -/
def rnd (q : ℚ) : ℤ :=
  if q - ⌊q⌋ < 1/2 then ⌊q⌋
  else if (1:ℚ)/2 < q - ⌊q⌋ then ⌊q⌋ + 1
  else if 2 ∣ ⌊q⌋ then ⌊q⌋ else ⌊q⌋ + 1

/-- The weighted sum `0.2989 * r + 0.5870 * g + 0.1140 * b` with the
decimal literals read exactly. -/
def ws (r g b : ℕ) : ℚ :=
  (2989/10000) * r + (5870/10000) * g + (1140/10000) * b

/-- `image[:, :, c]`: extract one channel plane. -/
def plane (image : Image) (c : ℕ) : List (List ℕ) :=
  image.map (fun row => row.map (fun p =>
    if c = 0 then p.1 else if c = 1 then p.2.1 else p.2.2))

/-- Scalar times array: `w * plane` promotes the uint8 plane to float64,
modelled as ℚ. -/
def smul (c : ℚ) (g : List (List ℕ)) : List (List ℚ) :=
  g.map (fun row => row.map (fun (v : ℕ) => c * (v : ℚ)))

/-- Elementwise array addition. -/
def addG (a b : List (List ℚ)) : List (List ℚ) :=
  List.zipWith (fun ra rb => List.zipWith (· + ·) ra rb) a b

/-- `np.round` applied elementwise to a float array. -/
def roundG (g : List (List ℚ)) : List (List ℤ) :=
  g.map (fun row => row.map rnd)

/-- `.astype(np.uint8)` on a float array of nonnegative integral values:
truncate and wrap modulo 256. -/
def astypeU8 (g : List (List ℤ)) : Gray :=
  g.map (fun row => row.map (fun z => z.toNat % 256))

/-- `.astype(np.uint8)` on an array that is already uint8: wrap modulo 256
(the identity on in-range values). -/
def astypeU8nat (g : Gray) : Gray :=
  g.map (fun row => row.map (fun v => v % 256))

/-- `convert_numpy`:
`np.round(0.2989*image[:,:,0] + 0.5870*image[:,:,1] + 0.1140*image[:,:,2])`
then `.astype(np.uint8)`. -/
def convert_numpy (image : Image) : Gray :=
  astypeU8 (roundG (addG (addG (smul (2989/10000) (plane image 0))
    (smul (5870/10000) (plane image 1))) (smul (1140/10000) (plane image 2))))

/-- `convert_numba`: the same body as `convert_numpy`, executed under
`@jit` (modelled as semantics-preserving). -/
def convert_numba (image : Image) : Gray :=
  astypeU8 (roundG (addG (addG (smul (2989/10000) (plane image 0))
    (smul (5870/10000) (plane image 1))) (smul (1140/10000) (plane image 2))))

/-- `np.empty(image.shape[:2], dtype=np.uint8)`: a preallocated
`height × width` uint8 grid (contents unspecified; modelled as zeros). -/
def npEmptyGray (h w : ℕ) : Gray := List.replicate h (List.replicate w 0)

/-- `image[y, x, :]`: read one pixel (only ever used in bounds). -/
def getPixel (image : Image) (y x : ℕ) : Pixel :=
  ((image[y]?.getD [])[x]?).getD (0, 0, 0)

/-- `bw_image[y, x] = v`: an in-bounds store into a 2-D grid; writes out
of bounds are impossible in the source loop and leave the grid unchanged. -/
def setGrid (g : Gray) (y x : ℕ) (v : ℕ) : Gray :=
  match g[y]? with
  | some row => g.set y (row.set x v)
  | none => g

/-- The store performed by `bw_image[y, x] = np.round(...)`: the rounded
float is cast into the uint8 cell (wrap modulo 256). -/
def storePix (p : Pixel) : ℕ :=
  (rnd (ws p.1 p.2.1 p.2.2)).toNat % 256

/-- `convert_numba_loop`: preallocate, then
`for y in range(h): for x in range(w): r,g,b = image[y,x,:];
bw[y,x] = np.round(0.2989*r + 0.5870*g + 0.1140*b)`, then
`.astype(np.uint8)`. -/
def convert_numba_loop (image : Image) : Gray :=
  astypeU8nat
    ((List.range (height image)).foldl (fun bw y =>
      (List.range (width image)).foldl (fun bw x =>
        setGrid bw y x (storePix (getPixel image y x))) bw)
      (npEmptyGray (height image) (width image)))

/-- Stateful rendering of `convert_numba_loop`: the mutable store holds
both the input array and the output array, and each loop iteration reads
`image[y, x, :]` and writes only `bw_image[y, x]`.  Returns the final
state of the input array together with the returned grayscale grid. -/
def convert_numba_loop_st (image : Image) : Image × Gray :=
  let final := (List.range (height image)).foldl (fun st y =>
      (List.range (width image)).foldl (fun st x =>
        (st.1, setGrid st.2 y x (storePix (getPixel st.1 y x)))) st)
    (image, npEmptyGray (height image) (width image))
  (final.1, astypeU8nat final.2)

/-- Round-half-to-even of `s / 10000`, computed on naturals. -/
def roundS (s : ℕ) : ℕ :=
  if s % 10000 < 5000 then s / 10000
  else if 5000 < s % 10000 then s / 10000 + 1
  else if (s / 10000) % 2 = 0 then s / 10000 else s / 10000 + 1

/-- Scaled-integer form of the per-pixel computation: the weighted sum
times 10000 is the natural number `2989*r + 5870*g + 1140*b`. -/
def lumNat (r g b : ℕ) : ℕ := roundS (2989 * r + 5870 * g + 1140 * b)

/-- Per-pixel normal form of every converter. -/
def pixFn (p : Pixel) : ℕ := lumNat p.1 p.2.1 p.2.2 % 256

/-! ### Normal forms: each converter maps `pixFn` over the image -/

/-- The vectorized pipeline restricted to a single row. -/
def rowNumpy (row : List Pixel) : List ℕ :=
  ((List.zipWith (· + ·)
      (List.zipWith (· + ·)
        ((row.map (fun p : Pixel => p.1)).map (fun v : ℕ => (2989/10000 : ℚ) * v))
        ((row.map (fun p : Pixel => p.2.1)).map (fun v : ℕ => (5870/10000 : ℚ) * v)))
      ((row.map (fun p : Pixel => p.2.2)).map (fun v : ℕ => (1140/10000 : ℚ) * v))).map
    rnd).map (fun z : ℤ => z.toNat % 256)

/-! ### Profiling harness: `profile_function` -/

/-- The process world seen by the harness: the wall clock (`time.time`),
the `tracemalloc` module state (whether tracing is on, the currently
traced size and the traced peak), and the wrapped callable's own private
state. -/
structure ProfWorld (σ : Type) where
  clock : ℚ
  tracingOn : Bool
  tracedCurrent : ℕ
  tracedPeak : ℕ
  userState : σ
deriving DecidableEq, Repr

/-- `tracemalloc.start()`: begin tracing with fresh counters. -/
def tracemallocStart {σ : Type} (w : ProfWorld σ) : ProfWorld σ :=
  { w with tracingOn := true, tracedCurrent := 0, tracedPeak := 0 }

/-- `tracemalloc.stop()`: stop tracing and clear the traces. -/
def tracemallocStop {σ : Type} (w : ProfWorld σ) : ProfWorld σ :=
  { w with tracingOn := false, tracedCurrent := 0, tracedPeak := 0 }

/-- `tracemalloc.get_traced_memory()`: the `(current, peak)` pair. -/
def getTracedMemory {σ : Type} (w : ProfWorld σ) : ℕ × ℕ :=
  (w.tracedCurrent, w.tracedPeak)

/-- `time.time()`: read the wall clock. -/
def timeTime {σ : Type} (w : ProfWorld σ) : ℚ := w.clock

/-- `profile_function(func, *args, **kwargs)`: start tracing, sample the
clock, invoke `func` once on exactly `args`, sample the clock again, read
the traced peak, stop tracing, and return
`(output, elapsed_time, max_memory)`.  The wrapped callable acts on the
world (it may take time and allocate) and may raise; a raise propagates
out of `profile_function` before `tracemalloc.stop()` is reached, exactly
as in the source. -/
def profile_function {σ γ ρ ε : Type}
    (func : γ → ProfWorld σ → Except (ε × ProfWorld σ) (ρ × ProfWorld σ))
    (args : γ) (w : ProfWorld σ) :
    Except (ε × ProfWorld σ) ((ρ × ℚ × ℕ) × ProfWorld σ) :=
  let w1 := tracemallocStart w
  let start_time := timeTime w1
  match func args w1 with
  | .error ew => .error ew
  | .ok (output, w2) =>
    let end_time := timeTime w2
    let max_memory := (getTracedMemory w2).2
    let w3 := tracemallocStop w2
    let elapsed_time := end_time - start_time
    .ok ((output, elapsed_time, max_memory), w3)

/-! ### Driver: `main` -/

/-- The file-system and output state touched by the driver: the set of
directories that exist (as segment paths) and the image files written
(path paired with the encoded grayscale grid). -/
structure DriverFS where
  dirs : List (List String)
  written : List (List String × Gray)
deriving DecidableEq, Repr

/-- Create one directory if absent (no error if it already exists). -/
def addDir (dirs : List (List String)) (d : List String) : List (List String) :=
  if d ∈ dirs then dirs else dirs ++ [d]

/-- The nonempty prefixes of a segment path, shortest first. -/
def prefixes (p : List String) : List (List String) :=
  (List.range p.length).map (fun i => p.take (i + 1))

/-- `output_path.mkdir(exist_ok=True, parents=True)`: create the
directory and all its parents, idempotently. -/
def mkdirParents (fs : DriverFS) (p : List String) : DriverFS :=
  { fs with dirs := (prefixes p).foldl addDir fs.dirs }

/-- The designated output directory, relative to the working directory. -/
def outputDir : List String := ["output"]

/-- One iteration of the driver loop, parameterized by the three
converters (`main` instantiates them with `convert_numpy`,
`convert_numba`, `convert_numba_loop`): convert with each, assert the
second and third outputs equal the first, then write
`<output_dir>/<stem>_bw.jpg`.  A failed assertion halts with an error
carrying the file-system state as it was, before any write. -/
def processImage (f1 f2 f3 : Image → Gray) (outdir : List String)
    (fs : DriverFS) (stem : String) (image : Image) :
    Except (String × DriverFS) DriverFS :=
  let bw_image_a := f1 image
  let bw_image_b := f2 image
  if bw_image_a = bw_image_b then
    let bw_image_c := f3 image
    if bw_image_a = bw_image_c then
      .ok { fs with written :=
        fs.written ++ [(outdir ++ [stem ++ "_bw.jpg"], bw_image_a)] }
    else .error ("AssertionError", fs)
  else .error ("AssertionError", fs)

/-- The driver loop over the discovered input files (stem and decoded
image for each `<stem>.JPG`); an assertion failure stops the loop. -/
def mainLoop (f1 f2 f3 : Image → Gray) (outdir : List String)
    (inputs : List (String × Image)) (fs : DriverFS) :
    Except (String × DriverFS) DriverFS :=
  inputs.foldlM (fun fs e => processImage f1 f2 f3 outdir fs e.1 e.2) fs

/-- `main()` (named `mainDriver` here because `main` is reserved):
create the output directory, then process every input. -/
def mainDriver (inputs : List (String × Image)) (fs : DriverFS) :
    Except (String × DriverFS) DriverFS :=
  mainLoop convert_numpy convert_numba convert_numba_loop outputDir inputs
    (mkdirParents fs outputDir)

/-! ### Concrete instances used by witnesses -/

/-- A small rectangular 8-bit test image. -/
def imgW : Image := [[(255, 0, 0), (0, 255, 0)], [(0, 0, 255), (128, 128, 128)]]

/-- The all-mid-gray 4×4×3 image of §8 of the spec. -/
def img128 : Image := List.replicate 4 (List.replicate 4 (128, 128, 128))

/-- The expected 4×4 all-128 grayscale output. -/
def gray128 : Gray := List.replicate 4 (List.replicate 4 128)

/-- An image with two rows and zero columns. -/
def imgE : Image := [[], []]

/-- A wrapped callable for harness witnesses: takes two time units,
peaks at 1000 traced bytes, updates its private state, returns `n + 1`. -/
def funcW : ℕ → ProfWorld ℕ → Except (Unit × ProfWorld ℕ) (ℕ × ProfWorld ℕ) :=
  fun n w =>
    .ok (n + 1, ⟨w.clock + 2, w.tracingOn, w.tracedCurrent, max w.tracedPeak 1000, w.userState + n⟩)

/-- An initial world with tracing off. -/
def w0 : ProfWorld ℕ := ⟨5, false, 0, 0, 7⟩

/-- The world `funcW 3` leaves behind when run from `tracemallocStart w0`
(the clock and peak are kept in unevaluated form so that the equality is
definitional). -/
def wAfter : ProfWorld ℕ := ⟨(5 : ℚ) + 2, true, 0, max 0 1000, 10⟩

/-- A wrapped callable that raises. -/
def failFunc : Unit → ProfWorld Unit →
    Except (Unit × ProfWorld Unit) (Unit × ProfWorld Unit) :=
  fun _ w => .error ((), w)

/-- An initial world with tracing off, for the failure scenario. -/
def w0f : ProfWorld Unit := ⟨0, false, 0, 0, ()⟩

/-- A dummy converter returning `[[0]]`, for driver witnesses. -/
def cA : Image → Gray := fun _ => [[0]]

/-- A dummy converter returning `[[1]]`, for driver witnesses. -/
def cB : Image → Gray := fun _ => [[1]]

/-- An empty file system. -/
def fs0 : DriverFS := ⟨[], []⟩

/-! ### Theorems -/

/-! ### Bridge between the rational rounding and its scaled-integer form -/

theorem floor_nat_div_10000 (s : ℕ) :
    ⌊((s : ℚ) / 10000)⌋ = ((s / 10000 : ℕ) : ℤ) := by
  have h := Rat.floor_natCast_div_natCast s 10000
  exact_mod_cast h

theorem frac_nat_div_10000 (s : ℕ) :
    ((s : ℚ) / 10000) - ⌊((s : ℚ) / 10000)⌋ = ((s % 10000 : ℕ) : ℚ) / 10000 := by
  rw [floor_nat_div_10000]
  have h := Nat.div_add_mod s 10000
  have h' : 10000 * ((s / 10000 : ℕ) : ℚ) + ((s % 10000 : ℕ) : ℚ) = (s : ℚ) := by
    exact_mod_cast congrArg (fun n : ℕ => (n : ℚ)) h
  have hc : ((((s / 10000 : ℕ) : ℤ)) : ℚ) = ((s / 10000 : ℕ) : ℚ) := by push_cast; rfl
  rw [hc]
  linarith

theorem rnd_nat_div_10000 (s : ℕ) : rnd ((s : ℚ) / 10000) = (roundS s : ℤ) := by
  have hlt : (((s % 10000 : ℕ) : ℚ) / 10000 < 1/2) ↔ s % 10000 < 5000 := by
    rw [div_lt_iff₀ (by norm_num : (0:ℚ) < 10000)]
    constructor
    · intro h
      have : ((s % 10000 : ℕ) : ℚ) < 5000 := by linarith
      exact_mod_cast this
    · intro h
      have : ((s % 10000 : ℕ) : ℚ) < 5000 := by exact_mod_cast h
      linarith
  have hgt : ((1:ℚ)/2 < ((s % 10000 : ℕ) : ℚ) / 10000) ↔ 5000 < s % 10000 := by
    rw [lt_div_iff₀ (by norm_num : (0:ℚ) < 10000)]
    constructor
    · intro h
      have : (5000 : ℚ) < ((s % 10000 : ℕ) : ℚ) := by linarith
      exact_mod_cast this
    · intro h
      have : (5000 : ℚ) < ((s % 10000 : ℕ) : ℚ) := by exact_mod_cast h
      linarith
  have hdvd : (2 ∣ ((s / 10000 : ℕ) : ℤ)) ↔ (s / 10000) % 2 = 0 := by
    rw [show ((2:ℤ) = ((2:ℕ) : ℤ)) from rfl, Int.natCast_dvd_natCast]
    omega
  unfold rnd
  rw [frac_nat_div_10000, floor_nat_div_10000]
  unfold roundS
  by_cases h1 : s % 10000 < 5000
  · rw [if_pos (hlt.mpr h1), if_pos h1]
  · rw [if_neg (fun hc => h1 (hlt.mp hc))]
    by_cases h2 : 5000 < s % 10000
    · rw [if_pos (hgt.mpr h2), if_neg h1, if_pos h2]
      push_cast; ring
    · rw [if_neg (fun hc => h2 (hgt.mp hc)), if_neg h1, if_neg h2]
      by_cases h3 : (s / 10000) % 2 = 0
      · rw [if_pos (hdvd.mpr h3), if_pos h3]
      · rw [if_neg (fun hc => h3 (hdvd.mp hc)), if_neg h3]
        push_cast; ring

theorem ws_eq_scaled (r g b : ℕ) :
    ws r g b = ((2989 * r + 5870 * g + 1140 * b : ℕ) : ℚ) / 10000 := by
  unfold ws
  push_cast
  ring

theorem rnd_ws (r g b : ℕ) : rnd (ws r g b) = (lumNat r g b : ℤ) := by
  rw [ws_eq_scaled, rnd_nat_div_10000, lumNat]

theorem storePix_eq_pixFn (p : Pixel) : storePix p = pixFn p := by
  unfold storePix pixFn
  rw [rnd_ws]
  simp

theorem rowNumpy_eq (row : List Pixel) : rowNumpy row = row.map pixFn := by
  induction row with
  | nil => rfl
  | cons p t ih =>
    show storePix p :: rowNumpy t = pixFn p :: t.map pixFn
    rw [ih, storePix_eq_pixFn]

theorem convert_numpy_eq_map (image : Image) :
    convert_numpy image = image.map (fun row => row.map pixFn) := by
  induction image with
  | nil => rfl
  | cons row rest ih =>
    show rowNumpy row :: convert_numpy rest =
      row.map pixFn :: rest.map (fun row => row.map pixFn)
    rw [ih, rowNumpy_eq]

theorem convert_numba_eq_map (image : Image) :
    convert_numba image = image.map (fun row => row.map pixFn) :=
  convert_numpy_eq_map image

/-! ### The nested loop of `convert_numba_loop` fills the whole grid -/

theorem foldl_set_length (f : ℕ → ℕ) (l : List ℕ) (r0 : List ℕ) :
    (l.foldl (fun r x => r.set x (f x)) r0).length = r0.length := by
  induction l generalizing r0 with
  | nil => rfl
  | cons a t ih => simp [ih]

theorem fillRow_getElem? (f : ℕ → ℕ) (r0 : List ℕ) (n i : ℕ) :
    ((List.range n).foldl (fun r x => r.set x (f x)) r0)[i]? =
      if i < n then (if i < r0.length then some (f i) else none) else r0[i]? := by
  induction n with
  | zero => simp
  | succ n ih =>
    rw [List.range_succ, List.foldl_append, List.foldl_cons, List.foldl_nil,
      List.getElem?_set, foldl_set_length, ih]
    by_cases h : n = i
    · subst h
      simp
    · have h' : (i < n + 1) ↔ (i < n) := by omega
      simp [h, h']

theorem fillRow_eq_map (f : ℕ → ℕ) (r0 : List ℕ) :
    (List.range r0.length).foldl (fun r x => r.set x (f x)) r0 =
      (List.range r0.length).map f := by
  apply List.ext_getElem?_iff.mpr
  intro i
  rw [fillRow_getElem?]
  by_cases hi : i < r0.length
  · simp [hi, List.getElem?_range hi]
  · have h1 : r0[i]? = none := List.getElem?_eq_none_iff.mpr (by omega)
    have h2 : ((List.range r0.length).map f)[i]? = none :=
      List.getElem?_eq_none_iff.mpr (by simpa using (by omega : r0.length ≤ i))
    simp [hi, h1, h2]

theorem setGrid_getElem? (g : Gray) (y x v j : ℕ) :
    (setGrid g y x v)[j]? =
      if y = j then (g[j]?).map (fun row => row.set x v) else g[j]? := by
  unfold setGrid
  cases hy : g[y]? with
  | none =>
    by_cases h : y = j
    · subst h
      simp [hy]
    · simp [h]
  | some row =>
    rw [List.getElem?_set]
    by_cases h : y = j
    · subst h
      have hlt : y < g.length := by
        by_contra hc
        rw [List.getElem?_eq_none_iff.mpr (by omega)] at hy
        exact Option.noConfusion hy
      simp [hlt, hy]
    · simp [h]

theorem innerFold_getElem? (F : ℕ → ℕ) (w y : ℕ) (g : Gray) (j : ℕ) :
    ((List.range w).foldl (fun g x => setGrid g y x (F x)) g)[j]? =
      if y = j then
        (g[j]?).map (fun r => (List.range w).foldl (fun r x => r.set x (F x)) r)
      else g[j]? := by
  induction w with
  | zero =>
    by_cases h : y = j <;> simp [h]
  | succ w ih =>
    rw [List.range_succ, List.foldl_append, List.foldl_cons, List.foldl_nil,
      setGrid_getElem?, ih]
    by_cases h : y = j
    · subst h
      cases g[y]? <;> simp [List.range_succ]
    · simp [h]

theorem loopFold_getElem? (F : ℕ → ℕ → ℕ) (w n : ℕ) (g0 : Gray) (j : ℕ) :
    ((List.range n).foldl (fun g y =>
        (List.range w).foldl (fun g x => setGrid g y x (F y x)) g) g0)[j]? =
      if j < n then
        (g0[j]?).map (fun r => (List.range w).foldl (fun r x => r.set x (F j x)) r)
      else g0[j]? := by
  induction n with
  | zero => simp
  | succ n ih =>
    rw [List.range_succ, List.foldl_append, List.foldl_cons, List.foldl_nil,
      innerFold_getElem?, ih]
    by_cases h : n = j
    · subst h
      simp
    · by_cases h2 : j < n
      · simp [h, h2, Nat.lt_succ_of_lt h2]
      · have h3 : ¬ j < n + 1 := by omega
        simp [h, h2, h3]

theorem range_map_getD {α β : Type} (l : List α) (d : α) (G : α → β) :
    (List.range l.length).map (fun i => G (l.getD i d)) = l.map G := by
  induction l with
  | nil => rfl
  | cons a t ih =>
    simp only [List.length_cons, List.range_succ_eq_map, List.map_cons,
      List.map_map, Function.comp_def, List.getD_cons_zero, Nat.succ_eq_add_one,
      List.getD_cons_succ]
    rw [ih]

theorem getPixel_eq_getD (image : Image) (row : List Pixel) (y x : ℕ)
    (h : image[y]? = some row) : getPixel image y x = row.getD x (0, 0, 0) := by
  unfold getPixel
  rw [h, List.getD_eq_getElem?_getD]
  rfl

theorem convert_numba_loop_eq_map (image : Image) (hrect : Rect image) :
    convert_numba_loop image = image.map (fun row => row.map pixFn) := by
  have hfold : (List.range (height image)).foldl (fun bw y =>
      (List.range (width image)).foldl (fun bw x =>
        setGrid bw y x (storePix (getPixel image y x))) bw)
      (npEmptyGray (height image) (width image)) =
      image.map (fun row => row.map storePix) := by
    apply List.ext_getElem?_iff.mpr
    intro j
    rw [loopFold_getElem? (fun y x => storePix (getPixel image y x))]
    by_cases hj : j < height image
    · have hrow : image[j]? = some image[j] := List.getElem?_eq_getElem hj
      have hmem : image[j] ∈ image := List.getElem?_mem hrow
      have hlen : (image[j]).length = width image := hrect _ hmem
      have hemp : (npEmptyGray (height image) (width image))[j]? =
          some (List.replicate (width image) 0) := by
        unfold npEmptyGray
        rw [List.getElem?_replicate, if_pos hj]
      rw [if_pos hj, hemp, List.getElem?_map, hrow]
      have hfill : (List.range (width image)).foldl
          (fun r x => r.set x (storePix (getPixel image j x)))
          (List.replicate (width image) 0) =
          (List.range (width image)).map (fun x => storePix (getPixel image j x)) := by
        have := fillRow_eq_map (fun x => storePix (getPixel image j x))
          (List.replicate (width image) 0)
        rwa [List.length_replicate] at this
      have hpix : (List.range (width image)).map
          (fun x => storePix (getPixel image j x)) = (image[j]).map storePix := by
        rw [← hlen]
        have hG : ∀ x, storePix (getPixel image j x) =
            storePix ((image[j]).getD x (0, 0, 0)) := by
          intro x
          rw [getPixel_eq_getD image _ j x hrow]
        calc (List.range (image[j]).length).map (fun x => storePix (getPixel image j x))
            = (List.range (image[j]).length).map
                (fun x => storePix ((image[j]).getD x (0, 0, 0))) := by
              exact List.map_congr_left (fun x _ => hG x)
          _ = (image[j]).map storePix := range_map_getD _ _ _
      simp only [Option.map_some']
      rw [hfill, hpix]
    · have h1 : (npEmptyGray (height image) (width image))[j]? = none := by
        unfold npEmptyGray
        rw [List.getElem?_replicate, if_neg hj]
      have h2 : (image.map (fun row => row.map storePix))[j]? = none := by
        apply List.getElem?_eq_none_iff.mpr
        simpa using (by omega : height image ≤ j)
      rw [if_neg hj, h1, h2]
  unfold convert_numba_loop
  rw [hfold]
  unfold astypeU8nat
  rw [List.map_map]
  apply List.map_congr_left
  intro row _
  simp only [Function.comp_def, List.map_map]
  apply List.map_congr_left
  intro p _
  simp only [Function.comp_def, storePix_eq_pixFn]
  unfold pixFn
  exact Nat.mod_mod _ _

/-! ### Supporting lemmas -/

theorem roundS_le (s : ℕ) : roundS s ≤ s / 10000 + 1 := by
  unfold roundS
  split
  · omega
  · split
    · omega
    · split <;> omega

theorem lumNat_lt_256 (r g b : ℕ) (hr : r < 256) (hg : g < 256) (hb : b < 256) :
    lumNat r g b < 256 := by
  unfold lumNat
  have hs : 2989 * r + 5870 * g + 1140 * b ≤ 2549745 := by nlinarith
  have h1 := roundS_le (2989 * r + 5870 * g + 1140 * b)
  have h2 : (2989 * r + 5870 * g + 1140 * b) / 10000 ≤ 254 := by omega
  omega

theorem pixFn_eq_of_lt (p : Pixel) (hr : p.1 < 256) (hg : p.2.1 < 256)
    (hb : p.2.2 < 256) : pixFn p = lumNat p.1 p.2.1 p.2.2 := by
  unfold pixFn
  exact Nat.mod_eq_of_lt (lumNat_lt_256 _ _ _ hr hg hb)

theorem rnd_ws_toNat (r g b : ℕ) : (rnd (ws r g b)).toNat = lumNat r g b := by
  rw [rnd_ws]
  exact Int.toNat_natCast _

theorem mem_addDir (dirs : List (List String)) (d e : List String)
    (h : d ∈ dirs) : d ∈ addDir dirs e := by
  unfold addDir
  split
  · exact h
  · exact List.mem_append_left _ h

theorem self_mem_addDir (dirs : List (List String)) (d : List String) :
    d ∈ addDir dirs d := by
  unfold addDir
  split
  · assumption
  · simp

theorem mem_foldl_addDir (l : List (List String)) (dirs : List (List String))
    (d : List String) (h : d ∈ dirs) : d ∈ l.foldl addDir dirs := by
  induction l generalizing dirs with
  | nil => exact h
  | cons a t ih => exact ih _ (mem_addDir _ _ _ h)

theorem mem_foldl_addDir_self (l : List (List String)) (d : List String)
    (h : d ∈ l) : ∀ dirs, d ∈ l.foldl addDir dirs := by
  induction l with
  | nil => cases h
  | cons a t ih =>
    intro dirs
    rw [List.foldl_cons]
    rcases List.mem_cons.mp h with h1 | h2
    · subst h1
      exact mem_foldl_addDir _ _ _ (self_mem_addDir _ _)
    · exact ih h2 _

theorem foldl_addDir_of_all_mem (l : List (List String))
    (dirs : List (List String)) (h : ∀ d ∈ l, d ∈ dirs) :
    l.foldl addDir dirs = dirs := by
  induction l generalizing dirs with
  | nil => rfl
  | cons a t ih =>
    have ha : addDir dirs a = dirs := by
      unfold addDir
      rw [if_pos (h a (List.mem_cons_self a t))]
    rw [List.foldl_cons, ha]
    exact ih _ (fun d hd => h d (List.mem_cons_of_mem a hd))

theorem mkdirParents_idem (fs : DriverFS) (p : List String) :
    mkdirParents (mkdirParents fs p) p = mkdirParents fs p := by
  unfold mkdirParents
  simp only
  congr 1
  exact foldl_addDir_of_all_mem _ _ (fun d hd => mem_foldl_addDir_self _ _ hd _)

theorem except_bind_ok {ε α β : Type} (a : α) (f : α → Except ε β) :
    (Except.ok a >>= f) = f a := rfl

theorem mainLoop_ok (inputs : List (String × Image)) (fs : DriverFS)
    (hrect : ∀ e ∈ inputs, Rect e.2) :
    mainLoop convert_numpy convert_numba convert_numba_loop outputDir inputs fs =
      .ok { fs with written := (fs.written ++ inputs.map
        (fun e => (outputDir ++ [e.1 ++ "_bw.jpg"], convert_numpy e.2))) } := by
  induction inputs generalizing fs with
  | nil =>
    simp only [List.map_nil, List.append_nil]
    rfl
  | cons e rest ih =>
    have hr : Rect e.2 := hrect e (List.mem_cons_self e rest)
    have hab : convert_numpy e.2 = convert_numba e.2 := rfl
    have hac : convert_numpy e.2 = convert_numba_loop e.2 := by
      rw [convert_numpy_eq_map, convert_numba_loop_eq_map _ hr]
    have hstep : processImage convert_numpy convert_numba convert_numba_loop
        outputDir fs e.1 e.2 = .ok { fs with written :=
          fs.written ++ [(outputDir ++ [e.1 ++ "_bw.jpg"], convert_numpy e.2)] } := by
      unfold processImage
      dsimp only
      rw [if_pos hab, if_pos hac]
    have htail := ih { fs with written :=
        fs.written ++ [(outputDir ++ [e.1 ++ "_bw.jpg"], convert_numpy e.2)] }
      (fun d hd => hrect d (List.mem_cons_of_mem e hd))
    unfold mainLoop at htail ⊢
    rw [List.foldlM_cons, hstep, except_bind_ok]
    rw [htail]
    congr 2
    simp

theorem foldl_pair_fst {β : Type} (g : Image → β → ℕ → β) (l : List ℕ)
    (st : Image × β) :
    l.foldl (fun st x => (st.1, g st.1 st.2 x)) st =
      (st.1, l.foldl (fun b x => g st.1 b x) st.2) := by
  induction l generalizing st with
  | nil => rfl
  | cons a t ih =>
    rw [List.foldl_cons, List.foldl_cons, ih]

theorem loop_st_fst (image : Image) :
    (convert_numba_loop_st image).1 = image ∧
    (convert_numba_loop_st image).2 = convert_numba_loop image := by
  unfold convert_numba_loop_st convert_numba_loop
  have hinner : (fun (st : Image × Gray) (y : ℕ) =>
      (List.range (width image)).foldl (fun st x =>
        (st.1, setGrid st.2 y x (storePix (getPixel st.1 y x)))) st) =
      (fun (st : Image × Gray) (y : ℕ) =>
        (st.1, (List.range (width image)).foldl (fun b x =>
          setGrid b y x (storePix (getPixel st.1 y x))) st.2)) := by
    funext st y
    exact foldl_pair_fst (fun img b x => setGrid b y x (storePix (getPixel img y x)))
      (List.range (width image)) st
  rw [hinner, foldl_pair_fst (fun img b y => (List.range (width image)).foldl
    (fun b x => setGrid b y x (storePix (getPixel img y x))) b)]
  exact ⟨rfl, rfl⟩

theorem foldl_const_id {α β : Type} (l : List β) (b : α) :
    l.foldl (fun b _ => b) b = b := by
  induction l with
  | nil => rfl
  | cons a t ih => exact ih

theorem map_eq_replicate_nil (image : Image) (hrows : ∀ row ∈ image, row = []) :
    image.map (fun row => row.map pixFn) = List.replicate (height image) [] := by
  calc image.map (fun row => row.map pixFn)
      = image.map (fun _ => ([] : List ℕ)) :=
        List.map_congr_left (fun row hr => by rw [hrows row hr]; rfl)
    _ = List.replicate (height image) [] := List.map_const' image []

/-! ### Claims -/

/-- Claim C1: for every valid 3-channel 8-bit input image (modelled as a
rectangular grid of pixels), `convert_numpy`, `convert_numba` and
`convert_numba_loop` produce exactly equal grayscale output grids. -/
theorem claim_C1 (image : Image) (h : Rect image) :
    convert_numpy image = convert_numba image ∧
    convert_numpy image = convert_numba_loop image := by
  refine ⟨rfl, ?_⟩
  rw [convert_numpy_eq_map, convert_numba_loop_eq_map image h]

/-- Witness for C1 at a concrete image. -/
theorem claim_C1_witness :
    Rect imgW ∧ (convert_numpy imgW = convert_numba imgW ∧
      convert_numpy imgW = convert_numba_loop imgW) :=
  ⟨by decide, claim_C1 imgW (by decide)⟩

/-- Claim C2: at every in-bounds pixel of a rectangular 8-bit image, each
converter's output value is the weighted sum
`0.2989*R + 0.5870*G + 0.1140*B` rounded to the nearest integer (ties to
even, numpy's rule) and cast to an unsigned 8-bit integer; the rounded
value is below 256, so the cast wraps nothing and no clamping occurs. -/
theorem claim_C2 (image : Image) (hrect : Rect image) (y x : ℕ)
    (row : List Pixel) (p : Pixel) (hy : image[y]? = some row)
    (hx : row[x]? = some p) (hr : p.1 < 256) (hg : p.2.1 < 256)
    (hb : p.2.2 < 256) :
    ((convert_numpy image)[y]?.getD [])[x]? =
      some ((rnd (ws p.1 p.2.1 p.2.2)).toNat) ∧
    ((convert_numba image)[y]?.getD [])[x]? =
      some ((rnd (ws p.1 p.2.1 p.2.2)).toNat) ∧
    ((convert_numba_loop image)[y]?.getD [])[x]? =
      some ((rnd (ws p.1 p.2.1 p.2.2)).toNat) ∧
    (rnd (ws p.1 p.2.1 p.2.2)).toNat < 256 := by
  have hval : (rnd (ws p.1 p.2.1 p.2.2)).toNat = lumNat p.1 p.2.1 p.2.2 :=
    rnd_ws_toNat _ _ _
  have hlt : lumNat p.1 p.2.1 p.2.2 < 256 := lumNat_lt_256 _ _ _ hr hg hb
  have key : ∀ out : Gray, out = image.map (fun row => row.map pixFn) →
      (out[y]?.getD [])[x]? = some ((rnd (ws p.1 p.2.1 p.2.2)).toNat) := by
    intro out ho
    subst ho
    rw [List.getElem?_map, hy]
    show (row.map pixFn)[x]? = _
    rw [List.getElem?_map, hx, hval]
    simp only [Option.map_some']
    rw [pixFn_eq_of_lt p hr hg hb]
  exact ⟨key _ (convert_numpy_eq_map image), key _ (convert_numba_eq_map image),
    key _ (convert_numba_loop_eq_map image hrect), hval ▸ hlt⟩

/-- Witness for C2 at pixel `(0, 0)` of a concrete image. -/
theorem claim_C2_witness :
    ((convert_numpy imgW)[0]?.getD [])[0]? = some ((rnd (ws 255 0 0)).toNat) ∧
    ((convert_numba imgW)[0]?.getD [])[0]? = some ((rnd (ws 255 0 0)).toNat) ∧
    ((convert_numba_loop imgW)[0]?.getD [])[0]? =
      some ((rnd (ws 255 0 0)).toNat) ∧
    (rnd (ws 255 0 0)).toNat < 256 :=
  claim_C2 imgW (by decide) 0 0 [(255, 0, 0), (0, 255, 0)] (255, 0, 0)
    rfl rfl (by decide) (by decide) (by decide)

/-- Claim C3: for every rectangular input image, each converter's output
has exactly the input's height and width; its entries are scalar samples,
so the output has exactly one channel. -/
theorem claim_C3 (image : Image) (h : Rect image) :
    ((convert_numpy image).length = height image ∧
      ∀ r ∈ convert_numpy image, r.length = width image) ∧
    ((convert_numba image).length = height image ∧
      ∀ r ∈ convert_numba image, r.length = width image) ∧
    ((convert_numba_loop image).length = height image ∧
      ∀ r ∈ convert_numba_loop image, r.length = width image) := by
  have key : ∀ out : Gray, out = image.map (fun row => row.map pixFn) →
      out.length = height image ∧ ∀ r ∈ out, r.length = width image := by
    intro out ho
    subst ho
    refine ⟨by simp [height], ?_⟩
    intro r hr
    obtain ⟨row, hrow, rfl⟩ := List.mem_map.mp hr
    simp [h row hrow]
  exact ⟨key _ (convert_numpy_eq_map image), key _ (convert_numba_eq_map image),
    key _ (convert_numba_loop_eq_map image h)⟩

/-- Witness for C3 at a concrete image. -/
theorem claim_C3_witness :
    Rect imgW ∧
    (((convert_numpy imgW).length = height imgW ∧
      ∀ r ∈ convert_numpy imgW, r.length = width imgW) ∧
    ((convert_numba imgW).length = height imgW ∧
      ∀ r ∈ convert_numba imgW, r.length = width imgW) ∧
    ((convert_numba_loop imgW).length = height imgW ∧
      ∀ r ∈ convert_numba_loop imgW, r.length = width imgW)) :=
  ⟨by decide, claim_C3 imgW (by decide)⟩

/-- Claim C4: on a normal run, `profile_function` invokes the wrapped
callable exactly once (its single application shows in the returned
value), on exactly the given arguments, and returns a triple of the
callable's unchanged result, the elapsed clock time (a rational, the
float model), and the traced peak memory (a natural byte count). -/
theorem claim_C4 {σ γ ρ ε : Type}
    (func : γ → ProfWorld σ → Except (ε × ProfWorld σ) (ρ × ProfWorld σ))
    (args : γ) (w : ProfWorld σ) (output : ρ) (w2 : ProfWorld σ)
    (h : func args (tracemallocStart w) = .ok (output, w2)) :
    profile_function func args w =
      .ok ((output, w2.clock - w.clock, w2.tracedPeak), tracemallocStop w2) := by
  unfold profile_function
  dsimp only
  rw [h]
  rfl

/-- Witness for C4 with a concrete callable and world. -/
theorem claim_C4_witness :
    funcW 3 (tracemallocStart w0) = .ok (4, wAfter) ∧
    profile_function funcW 3 w0 =
      .ok ((4, wAfter.clock - w0.clock, wAfter.tracedPeak),
        tracemallocStop wAfter) :=
  ⟨rfl, claim_C4 funcW 3 w0 4 wAfter rfl⟩

/-- Counterexample to C5: the source has no handler around the wrapped
call, so when the callable raises, `tracemalloc.stop()` is never reached:
starting from a world with tracing off, the error escapes with tracing
still on — teardown is not unconditional on the failure path. -/
theorem claim_C5_counterexample :
    w0f.tracingOn = false ∧
    profile_function failFunc () w0f = .error ((), tracemallocStart w0f) ∧
    (tracemallocStart w0f).tracingOn = true :=
  ⟨rfl, rfl, rfl⟩

/-- Claim C5 (amended): memory tracing is started immediately before the
wrapped call, and on every normal return it is stopped and torn down
before `profile_function` returns; when the wrapped callable fails,
however, the source propagates the failure without stopping tracing, so
the tracing state leaks. -/
theorem claim_C5 {σ γ ρ ε : Type}
    (func : γ → ProfWorld σ → Except (ε × ProfWorld σ) (ρ × ProfWorld σ))
    (args : γ) (w : ProfWorld σ) (r : ρ × ℚ × ℕ) (w' : ProfWorld σ)
    (h : profile_function func args w = .ok (r, w')) :
    (tracemallocStart w).tracingOn = true ∧ w'.tracingOn = false := by
  refine ⟨rfl, ?_⟩
  unfold profile_function at h
  dsimp only at h
  cases hf : func args (tracemallocStart w) with
  | error ew =>
    rw [hf] at h
    exact absurd h (by simp)
  | ok pr =>
    obtain ⟨out, w2⟩ := pr
    rw [hf] at h
    simp only [Except.ok.injEq, Prod.mk.injEq] at h
    obtain ⟨-, hw'⟩ := h
    rw [← hw']
    rfl

/-- Witness for C5 with a concrete callable and world. -/
theorem claim_C5_witness :
    profile_function funcW 3 w0 =
      .ok ((4, wAfter.clock - w0.clock, wAfter.tracedPeak),
        tracemallocStop wAfter) ∧
    ((tracemallocStart w0).tracingOn = true ∧
      (tracemallocStop wAfter).tracingOn = false) :=
  ⟨rfl, claim_C5 funcW 3 w0 _ _ rfl⟩

/-- Claim C6: in the driver's per-image step (`main` instantiates it with
the three converters), if the second or third converter's output differs
from the first (the `convert_numpy` baseline), the step halts with the
assertion failure, the file-system state is returned exactly as it was —
no output file is written for that image — and the driver loop stops
there. -/
theorem claim_C6 (f1 f2 f3 : Image → Gray) (outdir : List String)
    (fs : DriverFS) (stem : String) (image : Image)
    (h : f2 image ≠ f1 image ∨ f3 image ≠ f1 image) :
    processImage f1 f2 f3 outdir fs stem image =
      .error ("AssertionError", fs) ∧
    ∀ rest : List (String × Image),
      mainLoop f1 f2 f3 outdir ((stem, image) :: rest) fs =
        .error ("AssertionError", fs) := by
  have hp : processImage f1 f2 f3 outdir fs stem image =
      .error ("AssertionError", fs) := by
    unfold processImage
    dsimp only
    by_cases h1 : f1 image = f2 image
    · rw [if_pos h1]
      rcases h with h2 | h3
      · exact absurd h1.symm h2
      · rw [if_neg (fun hc : f1 image = f3 image => h3 hc.symm)]
    · rw [if_neg h1]
  refine ⟨hp, fun rest => ?_⟩
  unfold mainLoop
  rw [List.foldlM_cons]
  dsimp only
  rw [hp]
  rfl

/-- Witness for C6 with dummy converters that disagree. -/
theorem claim_C6_witness :
    (cB [] ≠ cA [] ∨ cB [] ≠ cA []) ∧
    (processImage cA cB cB outputDir fs0 "IMG" [] =
        .error ("AssertionError", fs0) ∧
      ∀ rest, mainLoop cA cB cB outputDir (("IMG", ([] : Image)) :: rest) fs0 =
        .error ("AssertionError", fs0)) :=
  ⟨Or.inl (by decide), claim_C6 cA cB cB outputDir fs0 "IMG" []
    (Or.inl (by decide))⟩

/-- Claim C7: no converter modifies its input image.  `convert_numpy` and
`convert_numba` contain no store at all; `convert_numba_loop` is the only
variant that writes, and in its stateful rendering — where the store
holds the input array next to the output array — the input component of
the final store equals the original image, while the returned grid is the
pure `convert_numba_loop` result. -/
theorem claim_C7 (image : Image) :
    (convert_numba_loop_st image).1 = image ∧
    (convert_numba_loop_st image).2 = convert_numba_loop image :=
  loop_st_fst image

/-- Counterexample to C8's stated reason: the luminance weights sum to
0.9999, not 1, so the weighted sum at `(128, 128, 128)` is
`127.9872 = 79992/625`, not exactly `128.0` as the claim asserts. -/
theorem claim_C8_counterexample :
    ws 128 128 128 = 79992 / 625 ∧ ws 128 128 128 ≠ 128 := by
  constructor
  · norm_num [ws]
  · norm_num [ws]

/-- Claim C8 (amended): for the 4×4 all-(128,128,128) image, all three
converters return the 4×4 all-128 grid — because the weighted sum
127.9872 rounds to 128, not because it equals 128.0 exactly. -/
theorem claim_C8 :
    convert_numpy img128 = gray128 ∧ convert_numba img128 = gray128 ∧
    convert_numba_loop img128 = gray128 := by
  have h1 : convert_numpy img128 = gray128 := by
    rw [convert_numpy_eq_map]
    decide
  have h3 : convert_numba_loop img128 = gray128 := by
    rw [convert_numba_loop_eq_map _ (by decide)]
    decide
  exact ⟨h1, h1, h3⟩

/-- Claim C9: on the success path (which `claim_C1` guarantees for
rectangular inputs), the driver writes exactly one output per input file
`<stem>.JPG`, named `<stem>_bw.jpg`, into the output directory; that
directory is created with parents and idempotently — creating it again
is a no-op, never an error. -/
theorem claim_C9 (inputs : List (String × Image)) (fs : DriverFS)
    (hrect : ∀ e ∈ inputs, Rect e.2) :
    mainDriver inputs fs = .ok { mkdirParents fs outputDir with
      written := (fs.written ++ inputs.map
        (fun e => (outputDir ++ [e.1 ++ "_bw.jpg"], convert_numpy e.2))) } ∧
    outputDir ∈ (mkdirParents fs outputDir).dirs ∧
    mkdirParents (mkdirParents fs outputDir) outputDir =
      mkdirParents fs outputDir := by
  refine ⟨?_, ?_, mkdirParents_idem fs outputDir⟩
  · unfold mainDriver
    rw [mainLoop_ok inputs (mkdirParents fs outputDir) hrect]
    rfl
  · have hmem : outputDir ∈ prefixes outputDir := by
      rw [show prefixes outputDir = [outputDir] from rfl]
      exact List.mem_singleton_self _
    exact mem_foldl_addDir_self _ _ hmem fs.dirs

/-- Witness for C9 with one concrete input image. -/
theorem claim_C9_witness :
    (∀ e ∈ [("IMG1", imgW)], Rect e.2) ∧
    (mainDriver [("IMG1", imgW)] fs0 =
        .ok { mkdirParents fs0 outputDir with
          written := (fs0.written ++ [("IMG1", imgW)].map
            (fun e => (outputDir ++ [e.1 ++ "_bw.jpg"], convert_numpy e.2))) } ∧
      outputDir ∈ (mkdirParents fs0 outputDir).dirs ∧
      mkdirParents (mkdirParents fs0 outputDir) outputDir =
        mkdirParents fs0 outputDir) :=
  ⟨by decide, claim_C9 [("IMG1", imgW)] fs0 (by decide)⟩

/-- Claim C10: on a rectangular image with zero rows or zero columns,
every converter returns the empty grid of matching shape (height rows,
each of the zero width), and the nested loops of `convert_numba_loop`
execute zero iterations, returning the preallocated grid as-is. -/
theorem claim_C10 (image : Image) (hrect : Rect image)
    (h : height image = 0 ∨ width image = 0) :
    convert_numpy image = List.replicate (height image) [] ∧
    convert_numba image = List.replicate (height image) [] ∧
    convert_numba_loop image = List.replicate (height image) [] ∧
    (List.range (height image)).foldl (fun bw y =>
      (List.range (width image)).foldl (fun bw x =>
        setGrid bw y x (storePix (getPixel image y x))) bw)
      (npEmptyGray (height image) (width image)) =
      npEmptyGray (height image) (width image) := by
  rcases h with hh | hw
  · have himg : image = [] := List.length_eq_zero.mp hh
    subst himg
    exact ⟨rfl, rfl, rfl, rfl⟩
  · have hrows : ∀ row ∈ image, row = [] := fun row hr =>
      List.length_eq_zero.mp (by rw [hrect row hr, hw])
    have h1 : convert_numpy image = List.replicate (height image) [] := by
      rw [convert_numpy_eq_map]
      exact map_eq_replicate_nil image hrows
    have hfold : (List.range (height image)).foldl (fun bw y =>
        (List.range (width image)).foldl (fun bw x =>
          setGrid bw y x (storePix (getPixel image y x))) bw)
        (npEmptyGray (height image) (width image)) =
        npEmptyGray (height image) (width image) := by
      rw [hw]
      simp only [List.range_zero, List.foldl_nil]
      exact foldl_const_id _ _
    have h3 : convert_numba_loop image = List.replicate (height image) [] := by
      unfold convert_numba_loop
      rw [hfold, hw]
      unfold npEmptyGray astypeU8nat
      rw [List.map_replicate]
      rfl
    exact ⟨h1, h1, h3, hfold⟩

/-- Witness for C10 at a two-row, zero-column image. -/
theorem claim_C10_witness :
    (Rect imgE ∧ (height imgE = 0 ∨ width imgE = 0)) ∧
    (convert_numpy imgE = List.replicate (height imgE) [] ∧
      convert_numba imgE = List.replicate (height imgE) [] ∧
      convert_numba_loop imgE = List.replicate (height imgE) [] ∧
      (List.range (height imgE)).foldl (fun bw y =>
        (List.range (width imgE)).foldl (fun bw x =>
          setGrid bw y x (storePix (getPixel imgE y x))) bw)
        (npEmptyGray (height imgE) (width imgE)) =
        npEmptyGray (height imgE) (width imgE)) :=
  ⟨⟨by decide, by decide⟩, claim_C10 imgE (by decide) (by decide)⟩
